import Mathlib

/-!
Verification of the TypeScript re-lexing core of the oxc tokenizer
(`crates/oxc_parser/src/lexer/typescript.rs`).

The two operations under study are `re_lex_as_typescript_l_angle` and
`re_lex_as_typescript_r_angle`:

    pub(crate) fn re_lex_as_typescript_l_angle(&mut self, offset: u32) -> Token {
        self.token.set_start(self.offset() - offset);
        self.source.back(offset as usize - 1);
        self.finish_next(Kind::LAngle)
    }

    pub(crate) fn re_lex_as_typescript_r_angle(&mut self, offset: u32) -> Token {
        self.token.set_start(self.offset() - offset);
        self.source.back(offset as usize - 1);
        self.finish_next(Kind::RAngle)
    }

The surrounding lexer (the `Kind` enumeration, `Token`, the cursor with
`Source::back`, `Lexer::offset`, `finish_next`, and the base greedy
scanner) is not part of the excerpt, so those pieces are modelled from the
specification.  Machine subtraction on `u32`/`usize` underflows are
modelled by `Option`-valued checked subtraction (an underflow is a
debug-build panic in the original, never a value).
-/

namespace OxcRelex

/-- Modelled from the spec: token kinds — "a tagged variant (closed
enumeration) for token kind".  The catalog kinds are the multi-character
angle-bracket operators; `LAngle`/`RAngle` are the single-character kinds
produced by narrowing; `Ident`, `Assign`, `GtEq`, `Unknown` are ordinary
kinds of the base scanner. -/
inductive Kind where
  | LAngle
  | RAngle
  | LShift
  | LShiftEq
  | LtEq
  | RShift
  | RShift3
  | RShiftEq
  | RShift3Eq
  | GtEq
  | Ident
  | Assign
  | Unknown
deriving DecidableEq, Repr

/-- Modelled from the spec: a token is "kind + span (start offset, end
offset, byte-based, half-open interval into the source buffer)".  The
field `stop` is the exclusive end offset. -/
structure Token where
  kind : Kind
  start : Nat
  stop : Nat
deriving DecidableEq, Repr

/-- The `Token::set_start` setter used by the re-lex operations. -/
def Token.set_start (t : Token) (s : Nat) : Token :=
  { t with start := s }

/-- Checked natural subtraction: `none` models the underflow panic of
Rust unsigned subtraction in debug builds. -/
def checkedSub (a b : Nat) : Option Nat :=
  if b ≤ a then some (a - b) else none

/-- Modelled from the spec: the Cursor / Source Reader, which "holds the
immutable source buffer and a mutable read position". -/
structure Source where
  text : List Char
  pos : Nat
deriving DecidableEq, Repr

/-- Modelled from the spec: `rewind(n)` a.k.a. `Source::back`, which
"moves the read position backward by exactly `n` bytes"; moving before
position 0 is an internal invariant break, modelled as `none`. -/
def Source.back (s : Source) (n : Nat) : Option Source :=
  (checkedSub s.pos n).map fun p => { s with pos := p }

/-- Modelled from the spec and the source signature
`Lexer<'a, Store: TokenStore<'a>>`: the lexer owns the cursor, the
current token being built, and a token store.  The store takes no part
in re-lexing. -/
structure Lexer where
  source : Source
  token : Token
  store : List Token
deriving DecidableEq, Repr

/-- Modelled from the spec: `Lexer::offset` returns "the cursor's
current absolute offset". -/
def Lexer.offset (l : Lexer) : Nat :=
  l.source.pos

/-- Modelled from the spec: `finish_next`, the base tokenizer's "finish
a token of kind K from the current cursor position" primitive.  It
finalizes the current token with the given kind, ending at the current
cursor position, and returns it; the cursor does not move. -/
def Lexer.finish_next (l : Lexer) (k : Kind) : Token × Lexer :=
  let t : Token := { l.token with kind := k, stop := l.offset }
  (t, { l with token := t })

/-- Translation of `re_lex_as_typescript_l_angle` from
`crates/oxc_parser/src/lexer/typescript.rs`: set the token start to
`offset()` − `offset`, rewind the cursor by `offset − 1`, and finish a
token of kind `LAngle`.  `none` models an arithmetic underflow panic. -/
def Lexer.re_lex_as_typescript_l_angle (l : Lexer) (offset : Nat) :
    Option (Token × Lexer) := do
  let s ← checkedSub l.offset offset
  let l := { l with token := l.token.set_start s }
  let d ← checkedSub offset 1
  let src ← l.source.back d
  let l := { l with source := src }
  pure (l.finish_next Kind.LAngle)

/-- Translation of `re_lex_as_typescript_r_angle` from
`crates/oxc_parser/src/lexer/typescript.rs`: identical to the left-angle
operation except that the finished token has kind `RAngle`. -/
def Lexer.re_lex_as_typescript_r_angle (l : Lexer) (offset : Nat) :
    Option (Token × Lexer) := do
  let s ← checkedSub l.offset offset
  let l := { l with token := l.token.set_start s }
  let d ← checkedSub offset 1
  let src ← l.source.back d
  let l := { l with source := src }
  pure (l.finish_next Kind.RAngle)

/-- Characters of each compound angle-bracket operator. -/
def kindText : Kind → List Char
  | Kind.LShift => ['<', '<']
  | Kind.LShiftEq => ['<', '<', '=']
  | Kind.LtEq => ['<', '=']
  | Kind.RShift => ['>', '>']
  | Kind.RShift3 => ['>', '>', '>']
  | Kind.RShiftEq => ['>', '>', '=']
  | Kind.RShift3Eq => ['>', '>', '>', '=']
  | _ => []

/-- Actual byte width of a compound operator kind: the length of its
character sequence. -/
def byteWidth (k : Kind) : Nat :=
  (kindText k).length

/-- Modelled from the spec: the compound-operator catalog, "a fixed
mapping from multi-character angle-bracket-prefixed operator kinds to
their byte width: `<<`→2, `<<=`→3, `<=`→2, `>>`→2, `>>>`→3, `>>=`→2
(and similar `>>>=`→4 if supported)".  The values are transcribed
exactly as the spec gives them. -/
def catalogWidth : Kind → Option Nat
  | Kind.LShift => some 2
  | Kind.LShiftEq => some 3
  | Kind.LtEq => some 2
  | Kind.RShift => some 2
  | Kind.RShift3 => some 3
  | Kind.RShiftEq => some 2
  | Kind.RShift3Eq => some 4
  | _ => none

/-- The kinds appearing in the compound-operator catalog. -/
def catalogKinds : List Kind :=
  [Kind.LShift, Kind.LShiftEq, Kind.LtEq,
   Kind.RShift, Kind.RShift3, Kind.RShiftEq, Kind.RShift3Eq]

/-- Left-angle family (`<`-prefixed) versus right-angle family. -/
def leftFamily : Kind → Bool
  | Kind.LShift => true
  | Kind.LShiftEq => true
  | Kind.LtEq => true
  | Kind.LAngle => true
  | _ => false

/-- The single-character kind a compound kind narrows to. -/
def singleKindOf (k : Kind) : Kind :=
  if leftFamily k then Kind.LAngle else Kind.RAngle

/-- The matching narrow operation for a compound kind: the left-angle
entry point for `<`-family kinds, the right-angle one otherwise. -/
def narrowOf (k : Kind) (l : Lexer) (offset : Nat) : Option (Token × Lexer) :=
  if leftFamily k then l.re_lex_as_typescript_l_angle offset
  else l.re_lex_as_typescript_r_angle offset

/-- Identifier continuation characters of the modelled scanner. -/
def isIdentChar (c : Char) : Bool :=
  c.isAlpha || c.isDigit || c = '_'

/-- Width of an identifier token whose first character has been seen:
one for that character plus the greedy run of identifier characters
after it. -/
def identWidth (cs : List Char) : Nat :=
  1 + (cs.takeWhile isIdentChar).length

/-- Modelled from the spec: the greedy (maximal-munch) classification of
the base tokenizer at the head of a character sequence — "a naive greedy
lexer has already consumed a longer operator (`<<`, `<=`, `>>`, `>>>`,
etc.) because that is the textually longest valid token at that
position".  Returns the kind and byte width of the next token, or `none`
at end of input. -/
def tokenWidthKind : List Char → Option (Kind × Nat)
  | [] => none
  | '<' :: '<' :: '=' :: _ => some (Kind.LShiftEq, 3)
  | '<' :: '<' :: _ => some (Kind.LShift, 2)
  | '<' :: '=' :: _ => some (Kind.LtEq, 2)
  | '<' :: _ => some (Kind.LAngle, 1)
  | '>' :: '>' :: '>' :: '=' :: _ => some (Kind.RShift3Eq, 4)
  | '>' :: '>' :: '>' :: _ => some (Kind.RShift3, 3)
  | '>' :: '>' :: '=' :: _ => some (Kind.RShiftEq, 3)
  | '>' :: '>' :: _ => some (Kind.RShift, 2)
  | '>' :: '=' :: _ => some (Kind.GtEq, 2)
  | '>' :: _ => some (Kind.RAngle, 1)
  | '=' :: _ => some (Kind.Assign, 1)
  | c :: cs =>
    if c.isAlpha || c = '_' then
      some (Kind.Ident, identWidth cs)
    else
      some (Kind.Unknown, 1)

/-- One step of ordinary scanning at absolute position `pos`: the token
spans `[pos, pos + width)` where the kind and width come from the greedy
classification of the remaining characters. -/
def scanOne (src : List Char) (pos : Nat) : Option Token :=
  (tokenWidthKind (src.drop pos)).map fun kw => ⟨kw.1, pos, pos + kw.2⟩

/-- Fuel-indexed ordinary scanning: emit tokens until end of input. -/
def scanTokens : Nat → List Char → Nat → List Token
  | 0, _, _ => []
  | fuel + 1, src, pos =>
    match scanOne src pos with
    | none => []
    | some t => t :: scanTokens fuel src t.stop

/-- All tokens produced by ordinary scanning of `src` from position
`pos` (with enough fuel to reach end of input). -/
def tokensFrom (src : List Char) (pos : Nat) : List Token :=
  scanTokens (src.length + 1) src pos

/-- All tokens of `src`, scanned from the beginning. -/
def tokenize (src : List Char) : List Token :=
  tokensFrom src 0

/-- Shift a token's span by `k` bytes. -/
def shiftTok (k : Nat) (t : Token) : Token :=
  ⟨t.kind, k + t.start, k + t.stop⟩

/-- The characters of `src` covered by the span of `t`. -/
def spanText (src : List Char) (t : Token) : List Char :=
  (src.drop t.start).take (t.stop - t.start)

/-- Concatenation of the spans of a token list, in order. -/
def concatSpans (src : List Char) : List Token → List Char
  | [] => []
  | t :: ts => spanText src t ++ concatSpans src ts

/-- The identifier run is no longer than the remaining input. -/
theorem takeWhile_ident_length_le (cs : List Char) :
    (cs.takeWhile isIdentChar).length ≤ cs.length := by
  induction cs with
  | nil => simp
  | cons a l ih =>
    rw [List.takeWhile_cons]
    split
    · simpa using Nat.succ_le_succ ih
    · simp

/-- An identifier token is non-empty and fits in the remaining input. -/
theorem identWidth_bound (c : Char) (cs : List Char) :
    0 < identWidth cs ∧ identWidth cs ≤ (c :: cs).length := by
  have := takeWhile_ident_length_le cs
  simp only [identWidth, List.length_cons]
  omega

/-- The greedy classification consumes at least one and at most all of
the remaining characters. -/
theorem tokenWidthKind_bound {cs : List Char} {k : Kind} {w : Nat}
    (h : tokenWidthKind cs = some (k, w)) : 0 < w ∧ w ≤ cs.length := by
  rw [tokenWidthKind.eq_def] at h
  split at h
  · exact Option.noConfusion h
  all_goals try (injection h with h'; injection h' with hk hw; subst hw; simp only [List.length_cons]; omega)
  split at h <;> (injection h with h'; injection h' with hk hw; subst hw)
  · exact identWidth_bound _ _
  · simp only [List.length_cons]; omega

/-- A produced token starts at the scan position, is non-empty, and ends
within the source. -/
theorem scanOne_some {src : List Char} {pos : Nat} {t : Token}
    (h : scanOne src pos = some t) :
    t.start = pos ∧ pos < t.stop ∧ t.stop ≤ src.length := by
  unfold scanOne at h
  cases hw : tokenWidthKind (src.drop pos) with
  | none => rw [hw] at h; exact absurd h (by simp)
  | some kw =>
    rw [hw] at h
    obtain ⟨hpos, hlen⟩ :=
      @tokenWidthKind_bound (src.drop pos) kw.1 kw.2 (by rw [hw])
    have hplen : pos ≤ src.length := by
      by_contra hc
      rw [List.drop_eq_nil_of_le (by omega)] at hw
      simp [tokenWidthKind] at hw
    simp only [Option.map_some', Option.some_inj] at h
    subst h
    have hdl : (src.drop pos).length = src.length - pos :=
      List.length_drop pos src
    refine ⟨rfl, ?_, ?_⟩
    · show pos < pos + kw.2
      omega
    · show pos + kw.2 ≤ src.length
      omega

/-- One scan step is translation invariant: scanning at `k + p` in the
full text is the same as scanning at `p` in the text with its first `k`
characters removed, with the span shifted by `k`. -/
theorem scanOne_shift (src : List Char) (k p : Nat) :
    scanOne src (k + p) = (scanOne (src.drop k) p).map (shiftTok k) := by
  unfold scanOne
  rw [List.drop_drop]
  cases tokenWidthKind (src.drop (k + p)) with
  | none => rfl
  | some kw =>
    simp only [Option.map_some', Option.some_inj, shiftTok, Token.mk.injEq]
    exact ⟨trivial, trivial, by omega⟩

/-- Ordinary scanning is translation invariant, token by token. -/
theorem scanTokens_shift (f : Nat) : ∀ (src : List Char) (k p : Nat),
    scanTokens f src (k + p) = (scanTokens f (src.drop k) p).map (shiftTok k) := by
  induction f with
  | zero => intro src k p; rfl
  | succ f ih =>
    intro src k p
    rw [scanTokens, scanTokens, scanOne_shift]
    cases h : scanOne (src.drop k) p with
    | none => rfl
    | some t =>
      simp only [Option.map_some', List.map_cons]
      refine congrArg (shiftTok k t :: ·) ?_
      show scanTokens f src (k + t.stop) = _
      exact ih src k t.stop

/-- With enough fuel to reach end of input, the fuel does not matter. -/
theorem scanTokens_congr : ∀ (f g : Nat) (src : List Char) (p : Nat),
    src.length - p < f → src.length - p < g →
    scanTokens f src p = scanTokens g src p := by
  intro f
  induction f with
  | zero => intro g src p hf; omega
  | succ f ih =>
    intro g src p hf hg
    cases g with
    | zero => omega
    | succ g =>
      rw [scanTokens, scanTokens]
      cases h : scanOne src p with
      | none => rfl
      | some t =>
        obtain ⟨hs, hlt, hle⟩ := scanOne_some h
        refine congrArg (t :: ·) (ih g src t.stop ?_ ?_) <;> omega

/-- Scanning the tail of a text from position `p` produces exactly the
tokens of that tail scanned in isolation, with spans shifted by `p`. -/
theorem tokensFrom_eq_shift (src : List Char) (p : Nat) :
    tokensFrom src p = (tokenize (src.drop p)).map (shiftTok p) := by
  unfold tokensFrom tokenize
  have h1 : p + 0 = p := Nat.add_zero p
  rw [← h1, scanTokens_shift]
  rw [h1]
  refine congrArg (List.map (shiftTok p)) ?_
  apply scanTokens_congr <;> (simp only [List.length_drop]; omega)

/-- Exact shape of a successful left-angle narrow: when the cursor sits
`off` bytes past the token start with `1 ≤ off`, the call returns the
width-1 `LAngle` token at the original start, with the cursor one byte
past that start; source text and store are untouched. -/
theorem re_lex_l_angle_eq (l : Lexer) (off : Nat) (h1 : 1 ≤ off)
    (h2 : l.source.pos = l.token.start + off) :
    l.re_lex_as_typescript_l_angle off =
      some (⟨Kind.LAngle, l.token.start, l.token.start + 1⟩,
        ⟨⟨l.source.text, l.token.start + 1⟩,
         ⟨Kind.LAngle, l.token.start, l.token.start + 1⟩, l.store⟩) := by
  have hoff : off ≤ l.source.pos := by omega
  have hstart : l.source.pos - off = l.token.start := by omega
  have hback : l.source.pos - (off - 1) = l.token.start + 1 := by omega
  simp only [Lexer.re_lex_as_typescript_l_angle, Lexer.offset, checkedSub,
    Source.back, Token.set_start, Lexer.finish_next, hoff, if_pos,
    Option.bind_eq_bind, Option.some_bind, bind, h1, Nat.sub_le,
    Option.map_some']
  have hcond : off ≤ l.source.pos + 1 := by omega
  simp [hstart, hback, hcond]

/-- Exact shape of a successful right-angle narrow, symmetric to
`re_lex_l_angle_eq`. -/
theorem re_lex_r_angle_eq (l : Lexer) (off : Nat) (h1 : 1 ≤ off)
    (h2 : l.source.pos = l.token.start + off) :
    l.re_lex_as_typescript_r_angle off =
      some (⟨Kind.RAngle, l.token.start, l.token.start + 1⟩,
        ⟨⟨l.source.text, l.token.start + 1⟩,
         ⟨Kind.RAngle, l.token.start, l.token.start + 1⟩, l.store⟩) := by
  have hoff : off ≤ l.source.pos := by omega
  have hstart : l.source.pos - off = l.token.start := by omega
  have hback : l.source.pos - (off - 1) = l.token.start + 1 := by omega
  simp only [Lexer.re_lex_as_typescript_r_angle, Lexer.offset, checkedSub,
    Source.back, Token.set_start, Lexer.finish_next, hoff, if_pos,
    Option.bind_eq_bind, Option.some_bind, bind, h1, Nat.sub_le,
    Option.map_some']
  have hcond : off ≤ l.source.pos + 1 := by omega
  simp [hstart, hback, hcond]

/-- A step of the parser-driven protocol: either an ordinary forward
scan, or a narrow (re-lex) of the token just produced. -/
inductive Op where
  | scan
  | narrow
deriving DecidableEq, Repr

/-- State of an interleaved run: the cursor position and the tokens
produced so far, in order. -/
structure RunState where
  pos : Nat
  toks : List Token
deriving DecidableEq, Repr

/-- Offset policy taking, for a catalog-kind token, the width recorded
in the spec's compound-operator catalog. -/
def catalogPolicy (t : Token) : Option Nat :=
  catalogWidth t.kind

/-- Offset policy taking, for a catalog-kind token, the actual byte
width of the token (the width of its span). -/
def spanWidthPolicy (t : Token) : Option Nat :=
  (catalogWidth t.kind).map fun _ => t.stop - t.start

/-- One step of the interleaved protocol.  A scan appends the next
greedily scanned token and advances the cursor past it.  A narrow is
legal only immediately after the last token was produced (cursor at its
end) and only for catalog kinds; it calls the matching re-lex operation
of the lexer with the offset given by the policy, and the narrowed token
replaces the one it re-lexes. -/
def runStep (pol : Token → Option Nat) (src : List Char) (st : RunState) :
    Op → Option RunState
  | Op.scan => (scanOne src st.pos).map fun t => ⟨t.stop, st.toks ++ [t]⟩
  | Op.narrow => do
    let t ← st.toks.getLast?
    if t.stop = st.pos then
      let off ← pol t
      let p ← narrowOf t.kind ⟨⟨src, st.pos⟩, t, []⟩ off
      pure ⟨p.2.source.pos, st.toks.dropLast ++ [p.1]⟩
    else none

/-- Run a sequence of protocol steps from a starting state. -/
def runOps (pol : Token → Option Nat) (src : List Char) :
    List Op → RunState → Option RunState
  | [], st => some st
  | op :: ops, st => (runStep pol src st op).bind (runOps pol src ops)

/-- The tokens of a list tile the byte range `[p, q)`: each token starts
where the previous one stopped, is non-empty, and the last one stops at
`q`. -/
def Chained : Nat → List Token → Nat → Prop
  | p, [], q => p = q
  | p, t :: ts, q => t.start = p ∧ t.start < t.stop ∧ Chained t.stop ts q

/-- A chain only moves forward. -/
theorem Chained.le {ts : List Token} : ∀ {p q : Nat}, Chained p ts q → p ≤ q := by
  induction ts with
  | nil => intro p q h; exact Nat.le_of_eq h
  | cons t ts ih =>
    intro p q h
    obtain ⟨h1, h2, h3⟩ := h
    have := ih h3
    omega

/-- Appending a fresh adjacent token extends a chain. -/
theorem Chained.append_one {ts : List Token} : ∀ {p q : Nat} {t : Token},
    Chained p ts q → t.start = q → t.start < t.stop →
    Chained p (ts ++ [t]) t.stop := by
  induction ts with
  | nil =>
    intro p q t h h1 h2
    exact ⟨by rw [h1, ← h], h2, rfl⟩
  | cons u ts ih =>
    intro p q t h h1 h2
    obtain ⟨g1, g2, g3⟩ := h
    exact ⟨g1, g2, ih g3 h1 h2⟩

/-- Splitting a chain at its final token. -/
theorem Chained.append_one_inv {ts : List Token} : ∀ {p q : Nat} {t : Token},
    Chained p (ts ++ [t]) q →
    Chained p ts t.start ∧ t.start < t.stop ∧ t.stop = q := by
  induction ts with
  | nil =>
    intro p q t h
    obtain ⟨h1, h2, h3⟩ := h
    exact ⟨h1.symm, h2, h3⟩
  | cons u ts ih =>
    intro p q t h
    obtain ⟨h1, h2, h3⟩ := h
    obtain ⟨g1, g2, g3⟩ := ih h3
    exact ⟨⟨h1, h2, g1⟩, g2, g3⟩

/-- A non-empty list is its front followed by its last element. -/
theorem getLast?_decomp {ts : List Token} {t : Token}
    (h : ts.getLast? = some t) : ts = ts.dropLast ++ [t] := by
  induction ts with
  | nil => exact Option.noConfusion h
  | cons u ts ih =>
    cases ts with
    | nil =>
      simp only [List.getLast?_singleton, Option.some_inj] at h
      rw [h]
      rfl
    | cons v ts =>
      rw [List.getLast?_cons_cons] at h
      have := ih h
      calc u :: v :: ts = u :: (v :: ts) := rfl
        _ = u :: ((v :: ts).dropLast ++ [t]) := by rw [← this]
        _ = (u :: v :: ts).dropLast ++ [t] := by simp [List.dropLast_cons₂]

/-- The spans of a chain concatenate to the underlying byte range. -/
theorem Chained.concatSpans_eq {src : List Char} {ts : List Token} :
    ∀ {p q : Nat}, Chained p ts q → q ≤ src.length →
    concatSpans src ts = (src.drop p).take (q - p) := by
  induction ts with
  | nil =>
    intro p q h hq
    rw [concatSpans, h, Nat.sub_self, List.take_zero]
  | cons t ts ih =>
    intro p q h hq
    obtain ⟨h1, h2, h3⟩ := h
    have hsq : t.stop ≤ q := h3.le
    rw [concatSpans, ih h3 hq, spanText, h1]
    have hdd : src.drop t.stop = (src.drop p).drop (t.stop - p) := by
      rw [List.drop_drop]
      refine congrArg (fun n => src.drop n) ?_
      omega
    rw [hdd, ← List.take_add]
    refine congrArg ((src.drop p).take ·) ?_
    omega

/-- The run invariant: the produced tokens tile `[0, pos)` and the
cursor is within the source. -/
def Inv (src : List Char) (st : RunState) : Prop :=
  Chained 0 st.toks st.pos ∧ st.pos ≤ src.length

/-- Every protocol step with the actual-byte-width policy preserves the
run invariant. -/
theorem runStep_inv {src : List Char} {st st2 : RunState} {op : Op}
    (hinv : Inv src st) (h : runStep spanWidthPolicy src st op = some st2) :
    Inv src st2 := by
  obtain ⟨hch, hpos⟩ := hinv
  cases op with
  | scan =>
    simp only [runStep] at h
    cases hs : scanOne src st.pos with
    | none => rw [hs] at h; exact Option.noConfusion h
    | some t =>
      rw [hs] at h
      obtain ⟨h1, h2, h3⟩ := scanOne_some hs
      simp only [Option.map_some', Option.some_inj] at h
      subst h
      exact ⟨Chained.append_one hch h1 (by omega), h3⟩
  | narrow =>
    simp only [runStep, Option.bind_eq_bind] at h
    cases hl : st.toks.getLast? with
    | none => rw [hl] at h; exact Option.noConfusion h
    | some t =>
      rw [hl, Option.some_bind] at h
      have hdecomp := getLast?_decomp hl
      rw [hdecomp] at hch
      obtain ⟨hfront, hw, hstop⟩ := Chained.append_one_inv hch
      rw [if_pos hstop] at h
      cases hp : spanWidthPolicy t with
      | none => rw [hp] at h; exact Option.noConfusion h
      | some off =>
        rw [hp, Option.some_bind] at h
        have hoffw : off = t.stop - t.start := by
          simp only [spanWidthPolicy] at hp
          cases hcw : catalogWidth t.kind with
          | none => rw [hcw] at hp; exact Option.noConfusion hp
          | some w =>
            rw [hcw] at hp
            simp only [Option.map_some', Option.some_inj] at hp
            omega
        have hoff1 : 1 ≤ off := by omega
        have hcur : (⟨⟨src, st.pos⟩, t, []⟩ : Lexer).source.pos =
            (⟨⟨src, st.pos⟩, t, []⟩ : Lexer).token.start + off := by
          show st.pos = t.start + off
          omega
        have hnar :
            narrowOf t.kind ⟨⟨src, st.pos⟩, t, []⟩ off =
              some (⟨singleKindOf t.kind, t.start, t.start + 1⟩,
                ⟨⟨src, t.start + 1⟩,
                 ⟨singleKindOf t.kind, t.start, t.start + 1⟩, []⟩) := by
          unfold narrowOf singleKindOf
          cases hf : leftFamily t.kind with
          | true =>
            simp only [if_pos]
            exact re_lex_l_angle_eq _ off hoff1 hcur
          | false =>
            simp only [if_neg, Bool.false_eq_true, not_false_iff]
            exact re_lex_r_angle_eq _ off hoff1 hcur
        have hps : st.pos = t.start + off := hcur
        rw [hnar, Option.some_bind] at h
        simp only [pure, Option.some_inj] at h
        subst h
        refine ⟨?_, ?_⟩
        · show Chained 0
            (st.toks.dropLast ++ [⟨singleKindOf t.kind, t.start, t.start + 1⟩])
            (t.start + 1)
          exact Chained.append_one hfront rfl (Nat.lt_succ_self t.start)
        · show t.start + 1 ≤ src.length
          omega

/-- Running any number of protocol steps with the actual-byte-width
policy preserves the run invariant. -/
theorem runOps_inv {src : List Char} : ∀ {ops : List Op} {st st2 : RunState},
    Inv src st → runOps spanWidthPolicy src ops st = some st2 → Inv src st2 := by
  intro ops
  induction ops with
  | nil =>
    intro st st2 hinv h
    simp only [runOps, Option.some_inj] at h
    rw [← h]
    exact hinv
  | cons op ops ih =>
    intro st st2 hinv h
    simp only [runOps] at h
    cases hs : runStep spanWidthPolicy src st op with
    | none => rw [hs] at h; exact Option.noConfusion h
    | some st1 =>
      rw [hs] at h
      exact ih (runStep_inv hinv hs) h

/-- Every width recorded in the compound-operator catalog is positive. -/
theorem catalogWidth_pos {K : Kind} {w : Nat} (h : catalogWidth K = some w) :
    1 ≤ w := by
  cases K <;> first | exact Option.noConfusion h | (injection h with h; omega)

/-- Cursor-based shape of a successful left-angle narrow. -/
theorem re_lex_l_angle_eq_pos (l : Lexer) (off : Nat) (h1 : 1 ≤ off)
    (h2 : off ≤ l.source.pos) :
    l.re_lex_as_typescript_l_angle off =
      some (⟨Kind.LAngle, l.source.pos - off, l.source.pos - off + 1⟩,
        ⟨⟨l.source.text, l.source.pos - off + 1⟩,
         ⟨Kind.LAngle, l.source.pos - off, l.source.pos - off + 1⟩, l.store⟩) := by
  have hback : l.source.pos - (off - 1) = l.source.pos - off + 1 := by omega
  have hcond : off - 1 ≤ l.source.pos := by omega
  simp only [Lexer.re_lex_as_typescript_l_angle, Lexer.offset, checkedSub,
    Source.back, Token.set_start, Lexer.finish_next, h2, h1, hcond, if_pos,
    Option.bind_eq_bind, Option.some_bind, Option.map_some']
  simp [hback]

/-- Cursor-based shape of a successful right-angle narrow. -/
theorem re_lex_r_angle_eq_pos (l : Lexer) (off : Nat) (h1 : 1 ≤ off)
    (h2 : off ≤ l.source.pos) :
    l.re_lex_as_typescript_r_angle off =
      some (⟨Kind.RAngle, l.source.pos - off, l.source.pos - off + 1⟩,
        ⟨⟨l.source.text, l.source.pos - off + 1⟩,
         ⟨Kind.RAngle, l.source.pos - off, l.source.pos - off + 1⟩, l.store⟩) := by
  have hback : l.source.pos - (off - 1) = l.source.pos - off + 1 := by omega
  have hcond : off - 1 ≤ l.source.pos := by omega
  simp only [Lexer.re_lex_as_typescript_r_angle, Lexer.offset, checkedSub,
    Source.back, Token.set_start, Lexer.finish_next, h2, h1, hcond, if_pos,
    Option.bind_eq_bind, Option.some_bind, Option.map_some']
  simp [hback]

/-- Inversion of a successful left-angle narrow: the offsets were in
range, the token is the width-1 `LAngle` at `pos − offset`, and the
resulting lexer keeps the text and store with the cursor right after
the new token. -/
theorem re_lex_l_success {l : Lexer} {off : Nat} {t : Token} {l2 : Lexer}
    (h : l.re_lex_as_typescript_l_angle off = some (t, l2)) :
    1 ≤ off ∧ off ≤ l.source.pos ∧
    t = ⟨Kind.LAngle, l.source.pos - off, l.source.pos - off + 1⟩ ∧
    l2 = ⟨⟨l.source.text, l.source.pos - off + 1⟩, t, l.store⟩ := by
  by_cases h2 : off ≤ l.source.pos
  · by_cases h1 : 1 ≤ off
    · rw [re_lex_l_angle_eq_pos l off h1 h2] at h
      simp only [Option.some_inj, Prod.mk.injEq] at h
      exact ⟨h1, h2, h.1.symm, by rw [← h.1]; exact h.2.symm⟩
    · exfalso
      simp [Lexer.re_lex_as_typescript_l_angle, Lexer.offset, checkedSub,
        Source.back, Token.set_start, Lexer.finish_next, h1] at h
  · exfalso
    simp [Lexer.re_lex_as_typescript_l_angle, Lexer.offset, checkedSub,
      Source.back, Token.set_start, Lexer.finish_next, h2] at h

/-- Inversion of a successful right-angle narrow, symmetric to
`re_lex_l_success`. -/
theorem re_lex_r_success {l : Lexer} {off : Nat} {t : Token} {l2 : Lexer}
    (h : l.re_lex_as_typescript_r_angle off = some (t, l2)) :
    1 ≤ off ∧ off ≤ l.source.pos ∧
    t = ⟨Kind.RAngle, l.source.pos - off, l.source.pos - off + 1⟩ ∧
    l2 = ⟨⟨l.source.text, l.source.pos - off + 1⟩, t, l.store⟩ := by
  by_cases h2 : off ≤ l.source.pos
  · by_cases h1 : 1 ≤ off
    · rw [re_lex_r_angle_eq_pos l off h1 h2] at h
      simp only [Option.some_inj, Prod.mk.injEq] at h
      exact ⟨h1, h2, h.1.symm, by rw [← h.1]; exact h.2.symm⟩
    · exfalso
      simp [Lexer.re_lex_as_typescript_r_angle, Lexer.offset, checkedSub,
        Source.back, Token.set_start, Lexer.finish_next, h1] at h
  · exfalso
    simp [Lexer.re_lex_as_typescript_r_angle, Lexer.offset, checkedSub,
      Source.back, Token.set_start, Lexer.finish_next, h2] at h

/-- A successful left-angle narrow, projected to kind/start/stop. -/
theorem narrow_map_l (l : Lexer) (w : Nat) (h1 : 1 ≤ w)
    (hpos : l.source.pos = l.token.start + w) :
    ((l.re_lex_as_typescript_l_angle w).map fun p =>
        (p.1.kind, p.1.start, p.1.stop)) =
      some (Kind.LAngle, l.token.start, l.token.start + 1) := by
  rw [re_lex_l_angle_eq l w h1 hpos]
  rfl

/-- A successful right-angle narrow, projected to kind/start/stop. -/
theorem narrow_map_r (l : Lexer) (w : Nat) (h1 : 1 ≤ w)
    (hpos : l.source.pos = l.token.start + w) :
    ((l.re_lex_as_typescript_r_angle w).map fun p =>
        (p.1.kind, p.1.start, p.1.stop)) =
      some (Kind.RAngle, l.token.start, l.token.start + 1) := by
  rw [re_lex_r_angle_eq l w h1 hpos]
  rfl

/-- A concrete lexer state: the source `<<`, fully scanned as one
`LShift` token, the cursor at its end. -/
def sampleLexer : Lexer :=
  ⟨⟨['<', '<'], 2⟩, ⟨Kind.LShift, 0, 2⟩, []⟩

/-- Claim C1: for every compound angle-bracket kind `K` of byte width
`W` in the catalog, with the lexer cursor positioned immediately after
the just-scanned `K` token, calling the matching narrow operation with
offset `W` returns a token of the corresponding single-character kind
(`LAngle` or `RAngle`) whose start offset equals the start offset of the
original `K` token and whose width is exactly 1 (its end offset is its
start offset plus 1). -/
theorem c1_narrow_same_start_width_one (l : Lexer) (K : Kind)
    (hK : K ∈ catalogKinds) (hkind : l.token.kind = K)
    (hpos : l.source.pos = l.token.start + byteWidth K) :
    ((narrowOf K l (byteWidth K)).map fun p =>
        (p.1.kind, p.1.start, p.1.stop)) =
      some (singleKindOf K, l.token.start, l.token.start + 1) := by
  simp only [catalogKinds, List.mem_cons, List.not_mem_nil, or_false] at hK
  rcases hK with rfl | rfl | rfl | rfl | rfl | rfl | rfl
  · exact narrow_map_l l _ (by decide) hpos
  · exact narrow_map_l l _ (by decide) hpos
  · exact narrow_map_l l _ (by decide) hpos
  · exact narrow_map_r l _ (by decide) hpos
  · exact narrow_map_r l _ (by decide) hpos
  · exact narrow_map_r l _ (by decide) hpos
  · exact narrow_map_r l _ (by decide) hpos

/-- Witness for C1 at the concrete state `sampleLexer` and kind `<<`. -/
theorem c1_witness :
    ((narrowOf Kind.LShift sampleLexer (byteWidth Kind.LShift)).map fun p =>
        (p.1.kind, p.1.start, p.1.stop)) =
      some (singleKindOf Kind.LShift, sampleLexer.token.start,
        sampleLexer.token.start + 1) :=
  c1_narrow_same_start_width_one sampleLexer Kind.LShift (by decide) rfl
    (by decide)

/-- Claim C2: for every narrow call with offset `W` issued when the
cursor sits at `original_start + W` (immediately after the compound
token), the cursor is rewound by exactly `W − 1` bytes, so after the
call the cursor's absolute position equals `original_start + 1`; this
holds for both narrow operations. -/
theorem c2_cursor_lands_after_start (l : Lexer) (off : Nat) (h1 : 1 ≤ off)
    (h2 : l.source.pos = l.token.start + off) :
    ((l.re_lex_as_typescript_l_angle off).map fun p => p.2.source.pos) =
      some (l.token.start + 1) ∧
    ((l.re_lex_as_typescript_r_angle off).map fun p => p.2.source.pos) =
      some (l.token.start + 1) ∧
    l.token.start + 1 + (off - 1) = l.source.pos := by
  refine ⟨?_, ?_, by omega⟩
  · rw [re_lex_l_angle_eq l off h1 h2]
    rfl
  · rw [re_lex_r_angle_eq l off h1 h2]
    rfl

/-- Witness for C2 at the concrete state `sampleLexer` with offset 2. -/
theorem c2_witness :
    ((sampleLexer.re_lex_as_typescript_l_angle 2).map fun p =>
        p.2.source.pos) = some (sampleLexer.token.start + 1) ∧
    ((sampleLexer.re_lex_as_typescript_r_angle 2).map fun p =>
        p.2.source.pos) = some (sampleLexer.token.start + 1) ∧
    sampleLexer.token.start + 1 + (2 - 1) = sampleLexer.source.pos :=
  c2_cursor_lands_after_start sampleLexer 2 (by decide) (by decide)

/-- Claim C5: when the narrow operation is called with an offset drawn
from the compound-operator catalog immediately after the cursor advanced
by exactly that offset, neither `self.offset() - offset` nor
`back(offset - 1)` underflows, the rewound cursor never moves before the
start of the token being narrowed, and both operations are total (return
a value) under this precondition. -/
theorem c5_no_underflow (l : Lexer) (off : Nat)
    (hcat : ∃ K, catalogWidth K = some off)
    (h2 : l.source.pos = l.token.start + off) :
    off ≤ l.offset ∧ off - 1 ≤ l.offset ∧
    ((l.re_lex_as_typescript_l_angle off).map fun p =>
        decide (l.token.start ≤ p.2.source.pos)) = some true ∧
    ((l.re_lex_as_typescript_r_angle off).map fun p =>
        decide (l.token.start ≤ p.2.source.pos)) = some true := by
  obtain ⟨K, hK⟩ := hcat
  have h1 : 1 ≤ off := catalogWidth_pos hK
  refine ⟨?_, ?_, ?_, ?_⟩
  · show off ≤ l.source.pos
    omega
  · show off - 1 ≤ l.source.pos
    omega
  · rw [re_lex_l_angle_eq l off h1 h2]
    simp
  · rw [re_lex_r_angle_eq l off h1 h2]
    simp

/-- Witness for C5 at the concrete state `sampleLexer` with the catalog
offset 2 of `<<`. -/
theorem c5_witness :
    2 ≤ sampleLexer.offset ∧ 2 - 1 ≤ sampleLexer.offset ∧
    ((sampleLexer.re_lex_as_typescript_l_angle 2).map fun p =>
        decide (sampleLexer.token.start ≤ p.2.source.pos)) = some true ∧
    ((sampleLexer.re_lex_as_typescript_r_angle 2).map fun p =>
        decide (sampleLexer.token.start ≤ p.2.source.pos)) = some true :=
  c5_no_underflow sampleLexer 2 ⟨Kind.LShift, rfl⟩ (by decide)

/-- Claim C8: neither narrow operation surfaces an error to its caller:
for every lexer state satisfying the call precondition (offset from the
catalog, cursor just past a token of that width), both operations
unconditionally return a token value. -/
theorem c8_no_error_surfaced (l : Lexer) (off : Nat)
    (hcat : ∃ K, catalogWidth K = some off)
    (h2 : l.source.pos = l.token.start + off) :
    (l.re_lex_as_typescript_l_angle off).isSome = true ∧
    (l.re_lex_as_typescript_r_angle off).isSome = true := by
  obtain ⟨K, hK⟩ := hcat
  have h1 : 1 ≤ off := catalogWidth_pos hK
  rw [re_lex_l_angle_eq l off h1 h2, re_lex_r_angle_eq l off h1 h2]
  exact ⟨rfl, rfl⟩

/-- Witness for C8 at the concrete state `sampleLexer` with offset 2. -/
theorem c8_witness :
    (sampleLexer.re_lex_as_typescript_l_angle 2).isSome = true ∧
    (sampleLexer.re_lex_as_typescript_r_angle 2).isSome = true :=
  c8_no_error_surfaced sampleLexer 2 ⟨Kind.LShift, rfl⟩ (by decide)

/-- The left-angle narrow fails exactly when an offset subtraction would
underflow. -/
theorem re_lex_l_angle_eq_none (l : Lexer) (off : Nat)
    (h : ¬(1 ≤ off ∧ off ≤ l.source.pos)) :
    l.re_lex_as_typescript_l_angle off = none := by
  cases hr : l.re_lex_as_typescript_l_angle off with
  | none => rfl
  | some p =>
    obtain ⟨h1, h2, _, _⟩ := @re_lex_l_success l off p.1 p.2 (by rw [hr])
    exact absurd ⟨h1, h2⟩ h

/-- The right-angle narrow fails exactly when an offset subtraction
would underflow. -/
theorem re_lex_r_angle_eq_none (l : Lexer) (off : Nat)
    (h : ¬(1 ≤ off ∧ off ≤ l.source.pos)) :
    l.re_lex_as_typescript_r_angle off = none := by
  cases hr : l.re_lex_as_typescript_r_angle off with
  | none => rfl
  | some p =>
    obtain ⟨h1, h2, _, _⟩ := @re_lex_r_success l off p.1 p.2 (by rw [hr])
    exact absurd ⟨h1, h2⟩ h

/-- A second concrete lexer state: same source and cursor as
`sampleLexer` but with the current token recorded under a different
kind. -/
def sampleLexerLtEq : Lexer :=
  ⟨⟨['<', '<'], 2⟩, ⟨Kind.LtEq, 0, 2⟩, []⟩

/-- Claim C9: the narrow operations perform no runtime check of the
current token's kind: for any two lexer states that agree on the source
(hence on cursor position) but whose current tokens have different
kinds, the same narrow operation with the same offset produces tokens
with identical spans and leaves the cursor at identical positions. -/
theorem c9_kind_independent (l1 l2 : Lexer) (off : Nat)
    (hsrc : l1.source = l2.source) (_hk : l1.token.kind ≠ l2.token.kind) :
    ((l1.re_lex_as_typescript_l_angle off).map fun p =>
        (p.1.start, p.1.stop, p.2.source.pos)) =
      ((l2.re_lex_as_typescript_l_angle off).map fun p =>
        (p.1.start, p.1.stop, p.2.source.pos)) ∧
    ((l1.re_lex_as_typescript_r_angle off).map fun p =>
        (p.1.start, p.1.stop, p.2.source.pos)) =
      ((l2.re_lex_as_typescript_r_angle off).map fun p =>
        (p.1.start, p.1.stop, p.2.source.pos)) := by
  by_cases h1 : 1 ≤ off
  · by_cases h2 : off ≤ l1.source.pos
    · have h2b : off ≤ l2.source.pos := by rw [← hsrc]; exact h2
      rw [re_lex_l_angle_eq_pos l1 off h1 h2, re_lex_l_angle_eq_pos l2 off h1 h2b,
        re_lex_r_angle_eq_pos l1 off h1 h2, re_lex_r_angle_eq_pos l2 off h1 h2b,
        hsrc]
      exact ⟨rfl, rfl⟩
    · have h2b : ¬ off ≤ l2.source.pos := by rw [← hsrc]; exact h2
      rw [re_lex_l_angle_eq_none l1 off fun hc => h2 hc.2,
        re_lex_l_angle_eq_none l2 off fun hc => h2b hc.2,
        re_lex_r_angle_eq_none l1 off fun hc => h2 hc.2,
        re_lex_r_angle_eq_none l2 off fun hc => h2b hc.2]
      exact ⟨rfl, rfl⟩
  · rw [re_lex_l_angle_eq_none l1 off fun hc => h1 hc.1,
      re_lex_l_angle_eq_none l2 off fun hc => h1 hc.1,
      re_lex_r_angle_eq_none l1 off fun hc => h1 hc.1,
      re_lex_r_angle_eq_none l2 off fun hc => h1 hc.1]
    exact ⟨rfl, rfl⟩

/-- Witness for C9: `sampleLexer` (current token kind `<<`) and
`sampleLexerLtEq` (current token kind `<=`) agree on source and cursor
but not on the recorded token kind. -/
theorem c9_witness :
    ((sampleLexer.re_lex_as_typescript_l_angle 2).map fun p =>
        (p.1.start, p.1.stop, p.2.source.pos)) =
      ((sampleLexerLtEq.re_lex_as_typescript_l_angle 2).map fun p =>
        (p.1.start, p.1.stop, p.2.source.pos)) ∧
    ((sampleLexer.re_lex_as_typescript_r_angle 2).map fun p =>
        (p.1.start, p.1.stop, p.2.source.pos)) =
      ((sampleLexerLtEq.re_lex_as_typescript_r_angle 2).map fun p =>
        (p.1.start, p.1.stop, p.2.source.pos)) :=
  c9_kind_independent sampleLexer sampleLexerLtEq 2 rfl (by decide)

/-- Claim C10: a narrow call mutates only the current token and the
cursor's read position: whenever the left-angle and right-angle
operations succeed, the source buffer text and the token store are
unchanged, and the lexer's current token is exactly the returned
token. -/
theorem c10_frame (l : Lexer) (off : Nat) (tl tr : Token) (ll lr : Lexer)
    (hl : l.re_lex_as_typescript_l_angle off = some (tl, ll))
    (hr : l.re_lex_as_typescript_r_angle off = some (tr, lr)) :
    (ll.source.text = l.source.text ∧ ll.store = l.store ∧ ll.token = tl) ∧
    (lr.source.text = l.source.text ∧ lr.store = l.store ∧ lr.token = tr) := by
  obtain ⟨_, _, _, hll⟩ := re_lex_l_success hl
  obtain ⟨_, _, _, hlr⟩ := re_lex_r_success hr
  rw [hll, hlr]
  exact ⟨⟨rfl, rfl, rfl⟩, ⟨rfl, rfl, rfl⟩⟩

/-- Witness for C10 at the concrete state `sampleLexer` with offset 2. -/
theorem c10_witness :
    ((⟨⟨['<', '<'], 1⟩, ⟨Kind.LAngle, 0, 1⟩, []⟩ : Lexer).source.text =
        sampleLexer.source.text ∧
      (⟨⟨['<', '<'], 1⟩, ⟨Kind.LAngle, 0, 1⟩, []⟩ : Lexer).store =
        sampleLexer.store ∧
      (⟨⟨['<', '<'], 1⟩, ⟨Kind.LAngle, 0, 1⟩, []⟩ : Lexer).token =
        (⟨Kind.LAngle, 0, 1⟩ : Token)) ∧
    ((⟨⟨['<', '<'], 1⟩, ⟨Kind.RAngle, 0, 1⟩, []⟩ : Lexer).source.text =
        sampleLexer.source.text ∧
      (⟨⟨['<', '<'], 1⟩, ⟨Kind.RAngle, 0, 1⟩, []⟩ : Lexer).store =
        sampleLexer.store ∧
      (⟨⟨['<', '<'], 1⟩, ⟨Kind.RAngle, 0, 1⟩, []⟩ : Lexer).token =
        (⟨Kind.RAngle, 0, 1⟩ : Token)) :=
  c10_frame sampleLexer 2 ⟨Kind.LAngle, 0, 1⟩ ⟨Kind.RAngle, 0, 1⟩
    ⟨⟨['<', '<'], 1⟩, ⟨Kind.LAngle, 0, 1⟩, []⟩
    ⟨⟨['<', '<'], 1⟩, ⟨Kind.RAngle, 0, 1⟩, []⟩ (by decide) (by decide)

/-- Claim C3 counterexample: on the source `<<<`, greedy scanning
produces a `LShift` token over bytes 0–2 (the following `<` cannot
extend it).  Narrowing it (offset 2) puts the cursor at position 1, but
ordinary scanning from there greedily takes the token `<<` spanning
bytes 1–3 — crossing the original token's boundary — whereas scanning
the remaining `W − 1 = 1` byte `<` in isolation yields a single
width-1 `LAngle`.  The two token sequences are not identical (not even
after shifting spans), refuting the claim as stated. -/
theorem c3_counterexample :
    (tokenize ['<', '<', '<']).head? = some ⟨Kind.LShift, 0, 2⟩ ∧
    Lexer.re_lex_as_typescript_l_angle
        ⟨⟨['<', '<', '<'], 2⟩, ⟨Kind.LShift, 0, 2⟩, []⟩ 2 =
      some (⟨Kind.LAngle, 0, 1⟩,
        ⟨⟨['<', '<', '<'], 1⟩, ⟨Kind.LAngle, 0, 1⟩, []⟩) ∧
    tokensFrom ['<', '<', '<'] 1 = [⟨Kind.LShift, 1, 3⟩] ∧
    tokenize ['<'] = [⟨Kind.LAngle, 0, 1⟩] ∧
    tokensFrom ['<', '<', '<'] 1 ≠
      (tokenize ['<']).map (shiftTok 1) := by
  refine ⟨?_, ?_, ?_, ?_, ?_⟩ <;> decide

/-- Claim C3 as amended: after a successful narrow call, the cursor
sits at `t.start + 1` (one byte past the narrowed token's start), and
the tokens produced by ordinary scanning from that position over the
remaining suffix of the source are identical — up to uniformly shifting
spans by that position — to the tokens obtained by scanning that suffix
in isolation.  (The original claim restricted the rescan to the
remaining `W − 1` bytes of the original token, which fails when greedy
scanning merges those bytes with following text.) -/
theorem c3_narrow_rescan_suffix (l : Lexer) (off : Nat) (t : Token)
    (l2 : Lexer)
    (h : l.re_lex_as_typescript_l_angle off = some (t, l2) ∨
         l.re_lex_as_typescript_r_angle off = some (t, l2)) :
    l2.source.pos = t.start + 1 ∧
    tokensFrom l2.source.text l2.source.pos =
      (tokenize (l2.source.text.drop l2.source.pos)).map
        (shiftTok l2.source.pos) := by
  refine ⟨?_, tokensFrom_eq_shift _ _⟩
  rcases h with h | h
  · obtain ⟨h1, h2, ht, hl⟩ := re_lex_l_success h
    rw [hl, ht]
  · obtain ⟨h1, h2, ht, hl⟩ := re_lex_r_success h
    rw [hl, ht]

/-- Witness for the amended C3 at the narrow of the `LShift` of
`a<<b`. -/
theorem c3_witness :
    ((⟨⟨['a', '<', '<', 'b'], 2⟩, ⟨Kind.LAngle, 1, 2⟩, []⟩ : Lexer).source.pos
        = (⟨Kind.LAngle, 1, 2⟩ : Token).start + 1) ∧
    tokensFrom
        (⟨⟨['a', '<', '<', 'b'], 2⟩, ⟨Kind.LAngle, 1, 2⟩, []⟩ :
          Lexer).source.text
        (⟨⟨['a', '<', '<', 'b'], 2⟩, ⟨Kind.LAngle, 1, 2⟩, []⟩ :
          Lexer).source.pos =
      (tokenize
          ((⟨⟨['a', '<', '<', 'b'], 2⟩, ⟨Kind.LAngle, 1, 2⟩, []⟩ :
            Lexer).source.text.drop
            (⟨⟨['a', '<', '<', 'b'], 2⟩, ⟨Kind.LAngle, 1, 2⟩, []⟩ :
              Lexer).source.pos)).map
        (shiftTok
          (⟨⟨['a', '<', '<', 'b'], 2⟩, ⟨Kind.LAngle, 1, 2⟩, []⟩ :
            Lexer).source.pos) :=
  c3_narrow_rescan_suffix
    ⟨⟨['a', '<', '<', 'b'], 3⟩, ⟨Kind.LShift, 1, 3⟩, []⟩ 2
    ⟨Kind.LAngle, 1, 2⟩ ⟨⟨['a', '<', '<', 'b'], 2⟩, ⟨Kind.LAngle, 1, 2⟩, []⟩
    (Or.inl (by decide))

/-- Claim C4 counterexample: on the source `>>=`, scanning produces the
compound token of kind `>>=` over bytes 0–3; narrowing it with the width
2 that the spec's catalog records for `>>=` produces an `RAngle` over
bytes 1–2 and leaves the cursor at 2, so the following scan yields `=`
over bytes 2–3.  The spans of the final tokens concatenate to `>=`,
losing the first byte of the source — the round trip fails. -/
theorem c4_counterexample :
    runOps catalogPolicy ['>', '>', '='] [Op.scan, Op.narrow, Op.scan]
        ⟨0, []⟩ =
      some ⟨3, [⟨Kind.RAngle, 1, 2⟩, ⟨Kind.Assign, 2, 3⟩]⟩ ∧
    concatSpans ['>', '>', '=']
        [⟨Kind.RAngle, 1, 2⟩, ⟨Kind.Assign, 2, 3⟩] = ['>', '='] ∧
    ['>', '='] ≠ List.take 3 ['>', '>', '='] := by
  refine ⟨?_, ?_, ?_⟩ <;> decide

/-- Claim C4 as amended: for every source text and every sequence of
interleaved scans and narrow operations in which each narrow is invoked,
for a catalog-kind token, with the actual byte width of the token just
produced, concatenating the text spans of all tokens finally produced,
in order, reconstructs the scanned slice of the source exactly — no
byte lost or duplicated. -/
theorem c4_round_trip {src : List Char} {ops : List Op} {st2 : RunState}
    (h : runOps spanWidthPolicy src ops ⟨0, []⟩ = some st2) :
    concatSpans src st2.toks = src.take st2.pos := by
  have hinv0 : Inv src ⟨0, []⟩ := ⟨rfl, Nat.zero_le _⟩
  have hinv : Inv src st2 := runOps_inv hinv0 h
  obtain ⟨hch, hle⟩ := hinv
  have hc := @Chained.concatSpans_eq src st2.toks 0 st2.pos hch hle
  simpa using hc

/-- Witness for the amended C4 on the run that scans `a<<b`, narrows
the `<<`, and scans the rest. -/
theorem c4_witness :
    concatSpans ['a', '<', '<', 'b']
        (⟨4, [⟨Kind.Ident, 0, 1⟩, ⟨Kind.LAngle, 1, 2⟩, ⟨Kind.LAngle, 2, 3⟩,
          ⟨Kind.Ident, 3, 4⟩]⟩ : RunState).toks =
      List.take
        (⟨4, [⟨Kind.Ident, 0, 1⟩, ⟨Kind.LAngle, 1, 2⟩, ⟨Kind.LAngle, 2, 3⟩,
          ⟨Kind.Ident, 3, 4⟩]⟩ : RunState).pos ['a', '<', '<', 'b'] :=
  @c4_round_trip ['a', '<', '<', 'b']
    [Op.scan, Op.scan, Op.narrow, Op.scan, Op.scan]
    ⟨4, [⟨Kind.Ident, 0, 1⟩, ⟨Kind.LAngle, 1, 2⟩,
      ⟨Kind.LAngle, 2, 3⟩, ⟨Kind.Ident, 3, 4⟩]⟩ (by decide)

/-- Claim C6 counterexample: the spec's catalog records width 2 for the
kind `>>=`, but a `>>=` token is three bytes wide, so narrowing a
just-scanned `>>=` (cursor at `start + 3`) with the catalog offset 2
yields an `RAngle` starting at byte 1 — not at the original token's
start offset 0. -/
theorem c6_counterexample :
    catalogWidth Kind.RShiftEq = some 2 ∧
    byteWidth Kind.RShiftEq = 3 ∧
    ((Lexer.re_lex_as_typescript_r_angle
          ⟨⟨['>', '>', '='], 3⟩, ⟨Kind.RShiftEq, 0, 3⟩, []⟩ 2).map fun p =>
        (p.1.kind, p.1.start, p.1.stop)) =
      some (Kind.RAngle, 1, 2) ∧
    (1 : Nat) ≠ 0 := by
  refine ⟨?_, ?_, ?_, ?_⟩ <;> decide

/-- Claim C6 as amended: invoking `re_lex_as_typescript_r_angle` with
the catalog offset 2 on a just-scanned `>>=` token (which is three
bytes wide) yields a token of kind `RAngle` of width exactly 1 whose
start offset is `original_start + 1`, one byte past the original `>>=`
token's start — not at the original start. -/
theorem c6_narrow_shift_eq (l : Lexer)
    (_hkind : l.token.kind = Kind.RShiftEq)
    (hpos : l.source.pos = l.token.start + byteWidth Kind.RShiftEq) :
    ((l.re_lex_as_typescript_r_angle 2).map fun p =>
        (p.1.kind, p.1.start, p.1.stop)) =
      some (Kind.RAngle, l.token.start + 1, l.token.start + 2) := by
  have hb : byteWidth Kind.RShiftEq = 3 := rfl
  rw [hb] at hpos
  have h2 : 2 ≤ l.source.pos := by omega
  rw [re_lex_r_angle_eq_pos l 2 (by omega) h2]
  simp only [Option.map_some', Option.some_inj, Prod.mk.injEq]
  exact ⟨trivial, by omega, by omega⟩

/-- Witness for the amended C6 on a just-scanned `>>=` over the source
text of exactly those three characters. -/
theorem c6_witness :
    (((⟨⟨['>', '>', '='], 3⟩, ⟨Kind.RShiftEq, 0, 3⟩, []⟩ :
          Lexer).re_lex_as_typescript_r_angle 2).map fun p =>
        (p.1.kind, p.1.start, p.1.stop)) =
      some (Kind.RAngle,
        (⟨⟨['>', '>', '='], 3⟩, ⟨Kind.RShiftEq, 0, 3⟩, []⟩ :
          Lexer).token.start + 1,
        (⟨⟨['>', '>', '='], 3⟩, ⟨Kind.RShiftEq, 0, 3⟩, []⟩ :
          Lexer).token.start + 2) :=
  c6_narrow_shift_eq ⟨⟨['>', '>', '='], 3⟩, ⟨Kind.RShiftEq, 0, 3⟩, []⟩
    rfl (by decide)

/-- Claim C7: for the input `a<<b`, greedy scanning yields the tokens
`Identifier "a"`, `LShift "<<"`, `Identifier "b"`; invoking
`re_lex_as_typescript_l_angle` with offset 2 immediately after the
`LShift` token is produced and then continuing ordinary scanning yields
the tokens `Identifier "a"`, `LAngle "<"`, `LAngle "<"`,
`Identifier "b"`. -/
theorem c7_input_a_shl_b :
    tokenize ['a', '<', '<', 'b'] =
      [⟨Kind.Ident, 0, 1⟩, ⟨Kind.LShift, 1, 3⟩, ⟨Kind.Ident, 3, 4⟩] ∧
    List.map (spanText ['a', '<', '<', 'b'])
        (tokenize ['a', '<', '<', 'b']) = [['a'], ['<', '<'], ['b']] ∧
    Lexer.re_lex_as_typescript_l_angle
        ⟨⟨['a', '<', '<', 'b'], 3⟩, ⟨Kind.LShift, 1, 3⟩, []⟩ 2 =
      some (⟨Kind.LAngle, 1, 2⟩,
        ⟨⟨['a', '<', '<', 'b'], 2⟩, ⟨Kind.LAngle, 1, 2⟩, []⟩) ∧
    tokensFrom ['a', '<', '<', 'b'] 2 =
      [⟨Kind.LAngle, 2, 3⟩, ⟨Kind.Ident, 3, 4⟩] ∧
    [⟨Kind.Ident, 0, 1⟩] ++ [⟨Kind.LAngle, 1, 2⟩] ++
        tokensFrom ['a', '<', '<', 'b'] 2 =
      [⟨Kind.Ident, 0, 1⟩, ⟨Kind.LAngle, 1, 2⟩, ⟨Kind.LAngle, 2, 3⟩,
        ⟨Kind.Ident, 3, 4⟩] ∧
    List.map (spanText ['a', '<', '<', 'b'])
        [⟨Kind.Ident, 0, 1⟩, ⟨Kind.LAngle, 1, 2⟩, ⟨Kind.LAngle, 2, 3⟩,
          ⟨Kind.Ident, 3, 4⟩] =
      [['a'], ['<'], ['<'], ['b']] := by
  refine ⟨?_, ?_, ?_, ?_, ?_, ?_⟩ <;> decide

end OxcRelex
